import Mathlib

/-!
Verification of the biometrics-dashboard attendance pipeline.

The Python sources (`biometric_processor.py`, `app.py`) are shallowly embedded
below.  Python strings are modelled as `List Char`, byte buffers as `List ℕ`
(one entry per byte, each < 256), `datetime.date` as a `Ymd` triple,
`datetime.time` as seconds-of-day (`ℕ`; all parsed times have whole-second
granularity), and Python floats as exact rationals (`ℚ`) — every float that
the code produces here is obtained from integer-valued data by subtraction
and division by the constants 3600/60/100, for which double rounding never
crosses any of the compared thresholds, so exact rational arithmetic has the
same observable behaviour.  Dict fields holding formatted strings
(`Check_In`, `Check_Out`, `Date` in the processed record) are represented by
the underlying values they format (formatting is injective on them).
-/

/-! ## Python string primitives (over `List Char`) -/

/-- The whitespace characters recognised by `str.strip` / `\s`
(ASCII subset; the inputs of interest are ASCII). -/
def pyWhitespaceChar (c : Char) : Bool :=
  c == ' ' || c == '\t' || c == '\n' || c == '\r' || c == '\x0b' || c == '\x0c'

/-- `str.strip()`: remove leading and trailing whitespace. -/
def pyStrip (s : List Char) : List Char :=
  ((s.dropWhile pyWhitespaceChar).reverse.dropWhile pyWhitespaceChar).reverse

/-- `str.split('\t')`: split on single tab separators, keeping empty parts
(`"".split('\t') == [""]`). -/
def pySplitTab : List Char → List (List Char)
  | [] => [[]]
  | c :: cs =>
    match pySplitTab cs with
    | [] => [[c]]
    | p :: ps => if c = '\t' then [] :: p :: ps else (c :: p) :: ps

/-- ASCII digit test for a character. -/
def pyDigitChar (c : Char) : Bool := '0' ≤ c && c ≤ '9'

/-- `str.isdigit()`: nonempty and all digits (ASCII model). -/
def pyIsdigit (s : List Char) : Bool := !s.isEmpty && s.all pyDigitChar

/-- Numeric value of a digit string (most significant digit first). -/
def digitsVal (s : List Char) : ℕ := s.foldl (fun a c => 10 * a + (c.toNat - 48)) 0

/-- `str.lower()` (ASCII model, as in `Series.str.lower` on ASCII ids). -/
def pyLower (s : List Char) : List Char := s.map Char.toLower

/-- Strict lexicographic order on strings by code point, as Python `<`. -/
def pyStrLt : List Char → List Char → Bool
  | [], [] => false
  | [], _ :: _ => true
  | _ :: _, [] => false
  | a :: as, b :: bs => if a < b then true else if b < a then false else pyStrLt as bs

/-- Python string `<=` (total order, so `a <= b ↔ ¬ b < a`). -/
def pyStrLe (a b : List Char) : Bool := !pyStrLt b a

/-! ## Dates and the fixed-format timestamp parser

`datetime.datetime.strptime(s, "%Y-%m-%d %H:%M:%S")`, as used in
`parse_attendance_file` (biometric_processor.py line 153).  CPython compiles
the format to the regex
`(\d\d\d\d)-(1[0-2]|0[1-9]|[1-9])-(3[01]|[12]\d|0[1-9]|[1-9])\s+`
`(2[0-3]|[0-1]\d|\d):([0-5]\d|\d):(6[0-1]|[0-5]\d|\d)`, anchored and
required to consume the whole string; the `datetime` constructor then
validates `1 ≤ year`, `day ≤ days-in-month` and `second ≤ 59`.  Because each
numeric field is followed by a non-digit, a successful match consumes each
maximal digit run whole, which is what the embedding below checks. -/

structure Ymd where
  y : ℕ
  m : ℕ
  d : ℕ
deriving DecidableEq, Repr

def isLeapYear (y : ℕ) : Bool := y % 4 == 0 && (y % 100 != 0 || y % 400 == 0)

def daysInMonth (y m : ℕ) : ℕ :=
  if m = 2 then (if isLeapYear y then 29 else 28)
  else if m = 4 ∨ m = 6 ∨ m = 9 ∨ m = 11 then 30
  else 31

/-- Split off the maximal leading digit run. -/
def takeDigits (l : List Char) : List Char × List Char :=
  (l.takeWhile pyDigitChar, l.dropWhile pyDigitChar)

/-- The `strptime` model: returns the parsed date and seconds-of-day, or
`none` exactly when the Python call raises (regex mismatch, trailing input,
or `datetime` range validation). -/
def strptimeYmdHms (s : List Char) : Option (Ymd × ℕ) :=
  let (ys, r1) := takeDigits s
  match r1 with
  | '-' :: r2 =>
    let (ms, r3) := takeDigits r2
    match r3 with
    | '-' :: r4 =>
      let (ds, r5) := takeDigits r4
      let ws := r5.takeWhile pyWhitespaceChar
      let r6 := r5.dropWhile pyWhitespaceChar
      let (hs, r7) := takeDigits r6
      match r7 with
      | ':' :: r8 =>
        let (mins, r9) := takeDigits r8
        match r9 with
        | ':' :: r10 =>
          let (ss, r11) := takeDigits r10
          let y := digitsVal ys
          let mo := digitsVal ms
          let d := digitsVal ds
          let h := digitsVal hs
          let mi := digitsVal mins
          let sec := digitsVal ss
          if r11 = [] ∧ ys.length = 4 ∧
              (ms.length = 1 ∨ ms.length = 2) ∧ 1 ≤ mo ∧ mo ≤ 12 ∧
              (ds.length = 1 ∨ ds.length = 2) ∧ 1 ≤ d ∧ d ≤ 31 ∧
              ws ≠ [] ∧
              (hs.length = 1 ∨ hs.length = 2) ∧ h ≤ 23 ∧
              (mins.length = 1 ∨ mins.length = 2) ∧ mi ≤ 59 ∧
              (ss.length = 1 ∨ ss.length = 2) ∧ sec ≤ 59 ∧
              1 ≤ y ∧ d ≤ daysInMonth y mo then
            some (⟨y, mo, d⟩, h * 3600 + mi * 60 + sec)
          else none
        | _ => none
      | _ => none
    | _ => none
  | _ => none

/-! ## Punch Event Parser (`parse_attendance_file`, lines 125–173) -/

/-- One parsed punch event (the dict built at lines 155–160; the `datetime`
entry is the pair of `date` and `time` and is kept implicitly). -/
structure PunchRecord where
  employee_id : List Char
  date : Ymd
  time : ℕ
deriving DecidableEq, Repr

/-- The per-line body of the parse loop (lines 138–166): strip the line, skip
it when blank; split on tabs, skip when fewer than two fields; strip the
first two fields, skip when the id is not all digits or the timestamp does
not parse; otherwise produce one event. -/
def parseAttendanceLine (line : List Char) : Option PunchRecord :=
  let l := pyStrip line
  if l = [] then none
  else
    match pySplitTab l with
    | p0 :: p1 :: _ =>
      let emp_id := pyStrip p0
      let datetime_str := pyStrip p1
      if pyIsdigit emp_id then
        match strptimeYmdHms datetime_str with
        | some (d, t) => some ⟨emp_id, d, t⟩
        | none => none
      else none
    | _ => none

/-- `parse_attendance_file` on an already-line-split input: the loop at
lines 137–166, appending one record per surviving line. -/
def parse_attendance_file : List (List Char) → List PunchRecord
  | [] => []
  | line :: rest =>
    match parseAttendanceLine line with
    | some r => r :: parse_attendance_file rest
    | none => parse_attendance_file rest

/-- The tab-separated fields of a (stripped) line. -/
def lineFields (line : List Char) : List (List Char) := pySplitTab (pyStrip line)

/-! ## Attendance Reconciler (`process_attendance_data`, lines 175–254) -/

/-- `employees.get(emp_id, f"Unknown_{emp_id}")` (line 183). -/
def nameOf (employees : List Char → Option (List Char)) (id : List Char) : List Char :=
  (employees id).getD ("Unknown_".data ++ id)

/-- One entry of the `daily_data` dict (lines 189–197): the key fields
together with the accumulated list of that day's punch times, in input
order. -/
structure DailyGroup where
  employee_id : List Char
  employee_name : List Char
  date : Ymd
  times : List ℕ
deriving DecidableEq, Repr

/-- Key equality used by the `daily_data` dict: the key is the triple
`(emp_id, emp_name, date)` (line 187). -/
def groupKeyMatches (g : DailyGroup) (id name : List Char) (date : Ymd) : Bool :=
  g.employee_id = id ∧ g.employee_name = name ∧ g.date = date

/-- Fold step of the grouping loop (lines 181–197): look the key up,
creating the entry on a miss, and append the record's time. A Python dict
preserves insertion order, so it is modelled as an ordered list of entries. -/
def addToDaily (employees : List Char → Option (List Char))
    (m : List DailyGroup) (r : PunchRecord) : List DailyGroup :=
  let name := nameOf employees r.employee_id
  if m.any (fun g => groupKeyMatches g r.employee_id name r.date) then
    m.map (fun g => if groupKeyMatches g r.employee_id name r.date then
      { g with times := g.times ++ [r.time] } else g)
  else
    m ++ [{ employee_id := r.employee_id, employee_name := name,
            date := r.date, times := [r.time] }]

/-- The populated `daily_data` dict. -/
def dailyData (employees : List Char → Option (List Char))
    (records : List PunchRecord) : List DailyGroup :=
  records.foldl (addToDaily employees) []

/-- `datetime.time(9, 30)` as seconds of day (line 200). -/
def office_start : ℕ := 9 * 3600 + 30 * 60

/-- Round-half-to-even to an integer, the rounding of Python `round`. -/
def roundHalfEven (q : ℚ) : ℤ :=
  if q - ⌊q⌋ < 1/2 then ⌊q⌋
  else if 1/2 < q - ⌊q⌋ then ⌊q⌋ + 1
  else if ⌊q⌋ % 2 = 0 then ⌊q⌋ else ⌊q⌋ + 1

/-- Python `round(x, 2)` on the exact rational value. -/
def pyRound2 (q : ℚ) : ℚ := (roundHalfEven (q * 100) : ℚ) / 100

/-- The processed employee-day record (the dict at lines 238–249).
`working_hours_raw` is the local `working_hours` float of lines 208–212 —
the value the status classification at lines 222–229 reads — while
`Working_Hours` is the rounded value stored in the dict (line 244). -/
structure ProcRecord where
  Employee_ID : List Char
  Employee_Name : List Char
  Date : Ymd
  Check_In : Option ℕ
  Check_Out : Option ℕ
  Working_Hours : ℚ
  working_hours_raw : ℚ
  Late_Minutes : ℕ
  Status : List Char
  Late_Flag : List Char
  Is_Late : Bool
deriving DecidableEq, Repr

/-- `times = sorted(data['times'])` (line 203). -/
def sortedTimes (g : DailyGroup) : List ℕ := List.insertionSort (· ≤ ·) g.times

/-- `check_in = times[0] if times else None` (line 205). -/
def checkInOf (g : DailyGroup) : Option ℕ := (sortedTimes g).head?

/-- `check_out = times[-1] if len(times) > 1 else None` (line 206). -/
def checkOutOf (g : DailyGroup) : Option ℕ :=
  if 1 < (sortedTimes g).length then (sortedTimes g).getLast? else none

/-- The `working_hours` local (lines 208–212): the hour difference of the
two `datetime.combine`d timestamps (same calendar date), 0 when either end
is missing. -/
def workingHoursOf (g : DailyGroup) : ℚ :=
  match checkInOf g, checkOutOf g with
  | some ci, some co => ((co : ℚ) - (ci : ℚ)) / 3600
  | _, _ => 0

/-- The `late_minutes` local (lines 215–219): minute difference past the
office start, 0 when on time or absent. -/
def lateMinutesOf (g : DailyGroup) : ℚ :=
  match checkInOf g with
  | some ci => if office_start < ci then ((ci : ℚ) - (office_start : ℚ)) / 60 else 0
  | none => 0

/-- The `is_late` local (lines 214–220): check-in strictly after 09:30. -/
def isLateOf (g : DailyGroup) : Bool :=
  match checkInOf g with
  | some ci => decide (office_start < ci)
  | none => false

/-- The `status` local (lines 222–229). -/
def statusOf (g : DailyGroup) : List Char :=
  if checkInOf g = none then "ABSENT".data
  else if 7 ≤ workingHoursOf g then "PRESENT".data
  else if 4 ≤ workingHoursOf g then "HALF_DAY".data
  else "PRESENT".data

/-- The `late_flag` local (lines 231–236). -/
def lateFlagOf (g : DailyGroup) : List Char :=
  if checkInOf g = none then "❌ ABSENT".data
  else if isLateOf g then "🚩 LATE".data
  else "✅ ON TIME".data

/-- The per-group body of the processing loop (lines 202–251), assembling
the processed record (lines 238–249); `Late_Minutes` is `int(late_minutes)`
(truncation of a nonnegative value, i.e. its floor). -/
def processGroup (g : DailyGroup) : ProcRecord :=
  { Employee_ID := g.employee_id
    Employee_Name := g.employee_name
    Date := g.date
    Check_In := checkInOf g
    Check_Out := checkOutOf g
    Working_Hours := pyRound2 (workingHoursOf g)
    working_hours_raw := workingHoursOf g
    Late_Minutes := ⌊lateMinutesOf g⌋₊
    Status := statusOf g
    Late_Flag := lateFlagOf g
    Is_Late := isLateOf g }

/-- `process_attendance_data(records, employees)`. -/
def process_attendance_data (records : List PunchRecord)
    (employees : List Char → Option (List Char)) : List ProcRecord :=
  (dailyData employees records).map processGroup

/-! ## Employee Directory Extractor (`parse_binary_employee_file`, lines 23–101)

The file's bytes are a `List ℕ` (each entry < 256).  The scan is embedded
with an explicit fuel argument equal to the number of remaining loop
iterations bound `data.length` (each iteration strictly advances `pos`, so
this fuel is never exhausted before the `while` condition fails). -/

/-- `32 <= byte <= 126` (line 48). -/
def printableByte (b : ℕ) : Bool := 32 ≤ b && b ≤ 126

/-- `48 <= byte <= 57` (line 74). -/
def digitByte (b : ℕ) : Bool := 48 ≤ b && b ≤ 57

/-- `bytes.decode('latin-1')` of bytes < 128: one char per byte. -/
def decodeBytes (bs : List ℕ) : List Char := bs.map Char.ofNat

/-- The maximal printable run starting at `pos`, capped at 50 bytes
(lines 44–50). -/
def nameRun (data : List ℕ) (pos : ℕ) : List ℕ :=
  ((data.drop pos).take 50).takeWhile (fun b => b ≠ 0 && printableByte b)

/-- The candidate-name filter (line 57): after stripping, a letter followed
by letters and whitespace (`^[A-Za-z][A-Za-z\s]*$`). -/
def looksLikeName (s : List Char) : Bool :=
  match s with
  | [] => false
  | c :: cs => (c.isAlpha) && cs.all (fun d => d.isAlpha || pyWhitespaceChar d)

/-- `while data[id_search_start] == 0: id_search_start += 1` (lines 62–63). -/
def skipZeros (data : List ℕ) (p : ℕ) : ℕ :=
  p + ((data.drop p).takeWhile (fun b => b = 0)).length

/-- The maximal digit run starting at `p`, capped at 10 bytes
(lines 70–76). -/
def idRun (data : List ℕ) (p : ℕ) : List ℕ :=
  ((data.drop p).take 10).takeWhile (fun b => b ≠ 0 && digitByte b)

/-- The id-search loop (lines 66–86): try each of the next 100 positions;
skip zero bytes; at the first position whose digit run is nonempty, decodes
to all digits and has length ≤ 3, record it and stop.  The fuel is the
number of remaining `for` iterations. -/
def findId (data : List ℕ) (p : ℕ) : ℕ → Option (List Char)
  | 0 => none
  | fuel + 1 =>
    if h : p < data.length then
      if data.get ⟨p, h⟩ = 0 then findId data (p + 1) fuel
      else
        let run := idRun data p
        if run.length > 0 then
          let potential_id := decodeBytes run
          if pyIsdigit potential_id && potential_id.length ≤ 3 then some potential_id
          else findId data (p + 1) fuel
        else findId data (p + 1) fuel
    else none

/-- The main scan loop (lines 40–94), emitting the `(id, name)` pairs in the
order the dict assignments at line 82 happen.  `fuel` bounds the remaining
iterations; `pos` strictly increases, so `data.length + 1` at `pos = 0`
always suffices. -/
def scanEventsAux (data : List ℕ) : ℕ → ℕ → List (List Char × List Char)
  | _, 0 => []
  | pos, fuel + 1 =>
    if pos < data.length - 10 then
      let run := nameRun data pos
      let name_end := pos + run.length
      if pos + 2 < name_end then
        let potential_name := decodeBytes run
        if potential_name ≠ [] && looksLikeName (pyStrip potential_name) then
          let name := pyStrip potential_name
          let id_search_start := skipZeros data name_end
          let found := findId data id_search_start (min 100 (data.length - id_search_start))
          match found with
          | some i => (i, name) :: scanEventsAux data (name_end + 50) fuel
          | none => scanEventsAux data (name_end + 50) fuel
        else scanEventsAux data (pos + 1) fuel
      else scanEventsAux data (pos + 1) fuel
    else []

/-- All `(id, name)` pairs accepted by the primary scan, in order. -/
def scanEvents (data : List ℕ) : List (List Char × List Char) :=
  scanEventsAux data 0 (data.length + 1)

/-- One dict assignment `employees[id] = name` on an insertion-ordered
association list (Python dicts update in place, append on new keys). -/
def dictInsert (m : List (List Char × List Char)) (kv : List Char × List Char) :
    List (List Char × List Char) :=
  if m.any (fun p => p.1 = kv.1) then
    m.map (fun p => if p.1 = kv.1 then kv else p)
  else m ++ [kv]

/-- The `employees` dict built by `parse_binary_employee_file`. -/
def parse_binary_employee_file (data : List ℕ) : List (List Char × List Char) :=
  (scanEvents data).foldl dictInsert []

/-- Dict lookup. -/
def dictLookup (m : List (List Char × List Char)) (k : List Char) :
    Option (List Char) :=
  (m.find? (fun p => p.1 = k)).map (fun p => p.2)

/-! ## Query Layer (`search_records`, app.py lines 160–217)

The search runs over the rows of the `Main_Data` sheet as loaded by
`load_biometric_data_from_latest_excel`: `Employee_ID` is a string and
`Date` a `'YYYY-MM-DD'` string, compared as strings. Only the columns the
filters read are modelled individually; the rest of the row rides along in
`rest`. -/

structure QRow where
  Employee_ID : List Char
  Date : List Char
  rest : List (List Char)
deriving DecidableEq, Repr

/-- `search_records` after query-parameter extraction: the filter chain at
app.py lines 181–193 (an empty string parameter means the filter is absent,
as `request.args.get(..., '').strip()` is falsy exactly when empty). -/
def search_records (records : List QRow)
    (employee_id from_date to_date : List Char) : List QRow :=
  let result := records
  let result :=
    if employee_id ≠ [] then
      result.filter (fun r => pyLower r.Employee_ID = pyLower employee_id)
    else result
  let result :=
    if from_date ≠ [] ∧ to_date ≠ [] then
      result.filter (fun r => pyStrLe from_date r.Date && pyStrLe r.Date to_date)
    else if from_date ≠ [] then
      result.filter (fun r => pyStrLe from_date r.Date)
    else if to_date ≠ [] then
      result.filter (fun r => pyStrLe r.Date to_date)
    else result
  result

/-! ## Aggregation (`create_comparison_sheet`, lines 644–689)

`df.groupby(['Employee_ID','Employee_Name']).agg(...)` followed by the
punctuality-rate lambda of lines 663–666, embedded per group. -/

/-- The rows of one `groupby` group. -/
def employeeGroup (rs : List ProcRecord) (k : List Char × List Char) : List ProcRecord :=
  rs.filter (fun r => r.Employee_ID = k.1 ∧ r.Employee_Name = k.2)

/-- The distinct `(Employee_ID, Employee_Name)` group keys. -/
def employeeKeys (rs : List ProcRecord) : List (List Char × List Char) :=
  (rs.map (fun r => (r.Employee_ID, r.Employee_Name))).dedup

/-- `('Status', lambda x: (x != 'ABSENT').sum())` — the `Present_Days`
column. -/
def presentDaysOf (g : List ProcRecord) : ℕ :=
  (g.filter (fun r => r.Status ≠ "ABSENT".data)).length

/-- `('Is_Late', 'sum')` — the `Late_Count` column (booleans sum to their
count of `True`). -/
def lateCountOf (g : List ProcRecord) : ℕ :=
  (g.filter (fun r => r.Is_Late)).length

/-- Python `round(x, 1)` on the exact rational value. -/
def pyRound1 (q : ℚ) : ℚ := (roundHalfEven (q * 10) : ℚ) / 10

/-- The `Punctuality_Rate` column (lines 663–666):
`round(((Present_Days - Late_Count) / Present_Days) * 100, 1)` when
`Present_Days > 0`, else `0.0`. -/
def punctualityRateOf (g : List ProcRecord) : ℚ :=
  if 0 < presentDaysOf g then
    pyRound1 (((presentDaysOf g : ℚ) - (lateCountOf g : ℚ)) / (presentDaysOf g : ℚ) * 100)
  else 0

/-- The `(employee_id, date)` pair of a group. -/
def groupPair (g : DailyGroup) : List Char × Ymd := (g.employee_id, g.date)

/-- The `(employee_id, date)` pair of a punch event. -/
def punchPair (r : PunchRecord) : List Char × Ymd := (r.employee_id, r.date)

/-! ## Concrete example inputs (used by the witness theorems) -/

/-- A directory knowing only employee `7`. -/
def exEmployees : List Char → Option (List Char) :=
  fun id => if id = ['7'] then some "Jane Doe".data else none

def exDate1 : Ymd := ⟨2024, 1, 10⟩

def exDate2 : Ymd := ⟨2024, 2, 1⟩

/-- Two punches for employee `7` on 2024-01-10 (09:15, 17:20) and one punch
for employee `42` on 2024-02-01 (10:00). -/
def exPunches : List PunchRecord :=
  [⟨['7'], exDate1, 9 * 3600 + 15 * 60⟩,
   ⟨['7'], exDate1, 17 * 3600 + 20 * 60⟩,
   ⟨"42".data, exDate2, 10 * 3600⟩]

/-- The record the pipeline produces for employee `7` on 2024-01-10. -/
def exRecord7 : ProcRecord :=
  { Employee_ID := ['7']
    Employee_Name := "Jane Doe".data
    Date := exDate1
    Check_In := some (9 * 3600 + 15 * 60)
    Check_Out := some (17 * 3600 + 20 * 60)
    Working_Hours := 202 / 25
    working_hours_raw := 97 / 12
    Late_Minutes := 0
    Status := "PRESENT".data
    Late_Flag := "✅ ON TIME".data
    Is_Late := false }

/-- The record the pipeline produces for employee `42` on 2024-02-01. -/
def exRecord42 : ProcRecord :=
  { Employee_ID := "42".data
    Employee_Name := "Unknown_42".data
    Date := exDate2
    Check_In := some (10 * 3600)
    Check_Out := none
    Working_Hours := 0
    working_hours_raw := 0
    Late_Minutes := 30
    Status := "PRESENT".data
    Late_Flag := "🚩 LATE".data
    Is_Late := true }

/-- The name of the last `(id, name)` candidate accepted for a given id
during a scan (the value "last occurrence wins" must give). -/
def lastAcceptedName (evs : List (List Char × List Char)) (k : List Char) :
    Option (List Char) :=
  (evs.reverse.find? (fun p => p.1 = k)).map (fun p => p.2)

/-- A small binary roster: the printable run `Bob`, a null, the digit bytes
`42`, then null padding. -/
def exBinData : List ℕ := [66, 111, 98, 0, 52, 50, 0, 0, 0, 0, 0, 0, 0, 0, 0]

/-- The daily group the example punches create for employee `7`. -/
def exGroup7 : DailyGroup :=
  ⟨['7'], "Jane Doe".data, exDate1, [9 * 3600 + 15 * 60, 17 * 3600 + 20 * 60]⟩

/-- The daily group the example punches create for employee `42`. -/
def exGroup42 : DailyGroup :=
  ⟨"42".data, "Unknown_42".data, exDate2, [10 * 3600]⟩

/-! ## Theorems -/

theorem parse_attendance_file_eq_filterMap (lines : List (List Char)) :
    parse_attendance_file lines = lines.filterMap parseAttendanceLine := by
  induction lines with
  | nil => rfl
  | cons l ls ih =>
    cases h : parseAttendanceLine l with
    | none => simp [parse_attendance_file, h, ih]
    | some r => simp [parse_attendance_file, h, ih]

theorem pySplitTab_ne_nil (s : List Char) : pySplitTab s ≠ [] := by
  cases s with
  | nil => simp [pySplitTab]
  | cons c cs =>
    simp only [pySplitTab]
    cases h : pySplitTab cs with
    | nil => simp
    | cons p ps =>
      by_cases hc : c = '\t' <;> simp [hc]

/-- C6: the punch-event parser skips blank lines, lines with fewer than two
tab-separated fields, lines whose first field is not all digits, and lines
whose second field the fixed-format timestamp parser rejects; each such line
is discarded (the parse is total, never aborting); every surviving line
yields exactly one `PunchRecord`; and the output preserves input line order
(it is the `filterMap` of the per-line parser over the lines in order). -/
theorem C6_parser_skips_malformed_lines_and_preserves_order :
    (∀ lines : List (List Char),
      parse_attendance_file lines = lines.filterMap parseAttendanceLine) ∧
    (∀ line : List Char,
      parseAttendanceLine line = none ↔
        (pyStrip line = [] ∨ (lineFields line).length < 2 ∨
          ¬ pyIsdigit (pyStrip ((lineFields line).getD 0 [])) ∨
          strptimeYmdHms (pyStrip ((lineFields line).getD 1 [])) = none)) := by
  constructor
  · exact parse_attendance_file_eq_filterMap
  · intro line
    unfold parseAttendanceLine lineFields
    by_cases hb : pyStrip line = []
    · simp [hb]
    · rw [if_neg hb]
      cases hsp : pySplitTab (pyStrip line) with
      | nil => exact absurd hsp (pySplitTab_ne_nil _)
      | cons p0 ps =>
        cases ps with
        | nil => simp [hsp, hb]
        | cons p1 rest =>
          by_cases hd : pyIsdigit (pyStrip p0)
          · cases hst : strptimeYmdHms (pyStrip p1) with
            | none => simp [hsp, hb, hd, hst]
            | some dt => simp [hsp, hb, hd, hst]
          · simp [hsp, hb, hd]

theorem groupKeyMatches_name_iff (employees : List Char → Option (List Char))
    (g : DailyGroup) (id : List Char) (d : Ymd)
    (hg : g.employee_name = nameOf employees g.employee_id) :
    groupKeyMatches g id (nameOf employees id) d = true ↔
      (g.employee_id = id ∧ g.date = d) := by
  simp only [groupKeyMatches, decide_eq_true_eq]
  constructor
  · rintro ⟨h1, _, h3⟩
    exact ⟨h1, h3⟩
  · rintro ⟨h1, h3⟩
    refine ⟨h1, ?_, h3⟩
    rw [hg, h1]


theorem groupPair_eq_iff (g : DailyGroup) (r : PunchRecord) :
    groupPair g = punchPair r ↔ (g.employee_id = r.employee_id ∧ g.date = r.date) := by
  simp [groupPair, punchPair, Prod.ext_iff]

theorem groupKeyMatches_iff_pair (employees : List Char → Option (List Char))
    (g : DailyGroup) (r : PunchRecord)
    (hg : g.employee_name = nameOf employees g.employee_id) :
    (groupKeyMatches g r.employee_id (nameOf employees r.employee_id) r.date = true) ↔
      groupPair g = punchPair r := by
  rw [groupKeyMatches_name_iff employees g _ _ hg, groupPair_eq_iff]

theorem addToDaily_of_mem (employees : List Char → Option (List Char))
    (m : List DailyGroup) (r : PunchRecord)
    (hname : ∀ g ∈ m, g.employee_name = nameOf employees g.employee_id)
    (hin : punchPair r ∈ m.map groupPair) :
    addToDaily employees m r = m.map (fun g =>
      if groupPair g = punchPair r then { g with times := g.times ++ [r.time] } else g) := by
  unfold addToDaily
  obtain ⟨g₀, hg₀m, hg₀p⟩ := List.mem_map.mp hin
  rw [if_pos (List.any_eq_true.mpr ⟨g₀, hg₀m,
    (groupKeyMatches_iff_pair employees g₀ r (hname g₀ hg₀m)).mpr hg₀p⟩)]
  refine List.map_congr_left (fun g hgm => ?_)
  by_cases hpg : groupPair g = punchPair r
  · rw [if_pos ((groupKeyMatches_iff_pair employees g r (hname g hgm)).mpr hpg),
      if_pos hpg]
  · rw [if_neg (by
      simpa using (groupKeyMatches_iff_pair employees g r (hname g hgm)).not.mpr hpg),
      if_neg hpg]

theorem addToDaily_of_not_mem (employees : List Char → Option (List Char))
    (m : List DailyGroup) (r : PunchRecord)
    (hname : ∀ g ∈ m, g.employee_name = nameOf employees g.employee_id)
    (hnotin : punchPair r ∉ m.map groupPair) :
    addToDaily employees m r =
      m ++ [⟨r.employee_id, nameOf employees r.employee_id, r.date, [r.time]⟩] := by
  unfold addToDaily
  rw [if_neg]
  intro hany
  obtain ⟨g, hgm, hfg⟩ := List.any_eq_true.mp hany
  exact hnotin (List.mem_map.mpr ⟨g, hgm,
    (groupKeyMatches_iff_pair employees g r (hname g hgm)).mp hfg⟩)

/-- The grouping loop of `process_attendance_data` (lines 179–197): each
group carries the directory-resolved name of its id and exactly the times of
the events with its `(employee_id, date)` pair in input order; group keys
are distinct; and the keys are exactly the keys occurring among the input
events. -/
theorem dailyData_spec (employees : List Char → Option (List Char))
    (records : List PunchRecord) :
    (∀ g ∈ dailyData employees records,
        g.employee_name = nameOf employees g.employee_id ∧
        g.times = ((records.filter (fun r => punchPair r = groupPair g)).map
          (fun r => r.time))) ∧
    ((dailyData employees records).map groupPair).Nodup ∧
    (∀ k : List Char × Ymd,
        k ∈ (dailyData employees records).map groupPair ↔
          k ∈ records.map punchPair) := by
  induction records using List.reverseRecOn with
  | nil => simp [dailyData]
  | append_singleton l r ih =>
    obtain ⟨ihSpec, ihNodup, ihMem⟩ := ih
    have hfold : dailyData employees (l ++ [r]) =
        addToDaily employees (dailyData employees l) r := by
      simp [dailyData, List.foldl_append]
    set m := dailyData employees l with hm
    rw [hfold]
    have hname : ∀ g ∈ m, g.employee_name = nameOf employees g.employee_id :=
      fun g hg => (ihSpec g hg).1
    by_cases hin : punchPair r ∈ m.map groupPair
    · -- existing key: the matching group's time list is extended
      rw [addToDaily_of_mem employees m r hname hin]
      have hupd : ∀ g : DailyGroup, groupPair
          (if groupPair g = punchPair r then { g with times := g.times ++ [r.time] }
            else g) = groupPair g := by
        intro g
        by_cases hpg : groupPair g = punchPair r
        · rw [if_pos hpg]; rfl
        · rw [if_neg hpg]
      have hkeys : (m.map (fun g => if groupPair g = punchPair r then
          { g with times := g.times ++ [r.time] } else g)).map groupPair =
          m.map groupPair := by
        rw [List.map_map]
        exact List.map_congr_left (fun g _ => hupd g)
      refine ⟨?_, ?_, ?_⟩
      · intro g' hg'
        obtain ⟨g, hgm, rfl⟩ := List.mem_map.mp hg'
        have hspec := ihSpec g hgm
        have hgp := hupd g
        by_cases hpg : groupPair g = punchPair r
        · rw [if_pos hpg] at hgp ⊢
          refine ⟨hspec.1, ?_⟩
          show g.times ++ [r.time] = _
          simp only [hgp, List.filter_append, List.filter_cons, List.filter_nil,
            List.map_append]
          rw [if_pos (by simpa using hpg.symm), ← hspec.2]
          simp
        · rw [if_neg hpg] at hgp ⊢
          refine ⟨hspec.1, ?_⟩
          simp only [List.filter_append, List.filter_cons, List.filter_nil,
            List.map_append]
          rw [if_neg (by simpa using fun h => hpg h.symm), ← hspec.2]
          simp
      · rw [hkeys]; exact ihNodup
      · intro k
        rw [hkeys, ihMem k, List.map_append]
        simp only [List.map_cons, List.map_nil, List.mem_append, List.mem_singleton]
        constructor
        · exact Or.inl
        · rintro (h | rfl)
          · exact h
          · exact (ihMem (punchPair r)).mp hin
    · -- new key: a fresh one-time group is appended
      rw [addToDaily_of_not_mem employees m r hname hin]
      have hrnotl : punchPair r ∉ l.map punchPair := fun h => hin ((ihMem _).mpr h)
      have hfl : l.filter (fun r' => punchPair r' = punchPair r) = [] := by
        rw [List.filter_eq_nil_iff]
        intro r' hr' hpr'
        refine hrnotl ?_
        simp only [decide_eq_true_eq] at hpr'
        rw [← hpr']
        exact List.mem_map_of_mem punchPair hr'
      have hnewpair : groupPair
          (⟨r.employee_id, nameOf employees r.employee_id, r.date, [r.time]⟩ :
            DailyGroup) = punchPair r := rfl
      refine ⟨?_, ?_, ?_⟩
      · intro g' hg'
        rcases List.mem_append.mp hg' with hgm | hgnew
        · have hspec := ihSpec g' hgm
          refine ⟨hspec.1, ?_⟩
          simp only [List.filter_append, List.filter_cons, List.filter_nil,
            List.map_append]
          rw [if_neg, ← hspec.2]
          · simp
          · simp only [decide_eq_true_eq]
            intro hpg
            exact hin (by rw [hpg]; exact List.mem_map_of_mem groupPair hgm)
        · rw [List.mem_singleton] at hgnew
          subst hgnew
          refine ⟨rfl, ?_⟩
          show [r.time] = _
          simp only [hnewpair, List.filter_append, hfl, List.filter_cons,
            List.filter_nil, List.map_append]
          simp
      · rw [List.map_append]
        rw [List.nodup_append]
        refine ⟨ihNodup, by simp, ?_⟩
        intro k hk
        simp only [List.map_cons, List.map_nil, List.mem_singleton, hnewpair]
        intro hkeq
        rw [hkeq] at hk
        exact hin hk
      · intro k
        rw [List.map_append, List.map_append]
        simp only [List.map_cons, List.map_nil, List.mem_append,
          List.mem_singleton, hnewpair]
        rw [ihMem k]

theorem dailyData_times_ne_nil (employees : List Char → Option (List Char))
    (records : List PunchRecord) :
    ∀ g ∈ dailyData employees records, g.times ≠ [] := by
  intro g hg
  obtain ⟨hSpec, _, hMem⟩ := dailyData_spec employees records
  have h1 := (hSpec g hg).2
  have h2 : groupPair g ∈ records.map punchPair :=
    (hMem _).mp (List.mem_map_of_mem groupPair hg)
  obtain ⟨r, hr, hpr⟩ := List.mem_map.mp h2
  have h3 : r ∈ records.filter (fun r' => punchPair r' = groupPair g) :=
    List.mem_filter.mpr ⟨hr, by simpa using hpr⟩
  have h4 : r.time ∈ g.times := by
    rw [h1]
    exact List.mem_map_of_mem (fun r' => r'.time) h3
  intro hnil
  rw [hnil] at h4
  exact (List.not_mem_nil r.time) h4

/-- C2: reconciliation produces exactly one AttendanceRecord per distinct
`(employee_id, date)` pair occurring among the input events — the output's
key pairs are duplicate-free and a pair occurs among the outputs iff it
occurs among the inputs — and an empty event list yields an empty record
list. -/
theorem C2_one_record_per_distinct_employee_day (records : List PunchRecord)
    (employees : List Char → Option (List Char)) :
    ((process_attendance_data records employees).map
        (fun pr => (pr.Employee_ID, pr.Date))).Nodup ∧
    (∀ k : List Char × Ymd,
      k ∈ (process_attendance_data records employees).map
          (fun pr => (pr.Employee_ID, pr.Date)) ↔
        k ∈ records.map punchPair) ∧
    (records = [] → process_attendance_data records employees = []) := by
  have hmaps : (process_attendance_data records employees).map
      (fun pr => (pr.Employee_ID, pr.Date)) =
      (dailyData employees records).map groupPair := by
    unfold process_attendance_data
    rw [List.map_map]
    rfl
  obtain ⟨_, hNodup, hMem⟩ := dailyData_spec employees records
  refine ⟨by rw [hmaps]; exact hNodup,
    fun k => by rw [hmaps]; exact hMem k,
    fun h => by subst h; rfl⟩

theorem C2_witness :
    ("42".data, exDate2) ∈ (process_attendance_data exPunches exEmployees).map
        (fun pr => (pr.Employee_ID, pr.Date)) ∧
      process_attendance_data [] exEmployees = [] := by
  constructor
  · refine ((C2_one_record_per_distinct_employee_day exPunches exEmployees).2.1
      ("42".data, exDate2)).mpr ?_
    decide
  · exact (C2_one_record_per_distinct_employee_day [] exEmployees).2.2 rfl

theorem exDaily_eval :
    dailyData exEmployees exPunches = [exGroup7, exGroup42] := by decide

theorem exGroup7_checkIn : checkInOf exGroup7 = some (9 * 3600 + 15 * 60) := by decide

theorem exGroup7_checkOut : checkOutOf exGroup7 = some (17 * 3600 + 20 * 60) := by decide

theorem exGroup7_wh : workingHoursOf exGroup7 = 97 / 12 := by
  unfold workingHoursOf
  rw [exGroup7_checkIn, exGroup7_checkOut]
  norm_num

theorem exGroup7_eval : processGroup exGroup7 = exRecord7 := by
  have hlm : lateMinutesOf exGroup7 = 0 := by
    unfold lateMinutesOf
    rw [exGroup7_checkIn]
    norm_num [office_start]
  have hisl : isLateOf exGroup7 = false := by decide
  have hst : statusOf exGroup7 = "PRESENT".data := by
    unfold statusOf
    rw [exGroup7_checkIn, exGroup7_wh]
    rw [if_neg (by simp)]
    rw [if_pos (by norm_num)]
  have hlf : lateFlagOf exGroup7 = "✅ ON TIME".data := by
    unfold lateFlagOf
    rw [exGroup7_checkIn, hisl]
    rw [if_neg (by simp)]
    simp
  have hround : pyRound2 (97 / 12 : ℚ) = 202 / 25 := by
    have hfl : ⌊(97 / 12 : ℚ) * 100⌋ = 808 := by
      rw [Int.floor_eq_iff]
      norm_num
    unfold pyRound2 roundHalfEven
    rw [hfl]
    norm_num
  unfold processGroup exRecord7
  rw [exGroup7_checkIn, exGroup7_checkOut, exGroup7_wh, hlm, hisl, hst, hlf,
    hround]
  simp only [Nat.floor_zero]
  rfl

theorem exGroup42_checkIn : checkInOf exGroup42 = some (10 * 3600) := by decide

theorem exGroup42_checkOut : checkOutOf exGroup42 = none := by decide

theorem exGroup42_wh : workingHoursOf exGroup42 = 0 := by
  unfold workingHoursOf
  rw [exGroup42_checkIn, exGroup42_checkOut]

theorem exGroup42_eval : processGroup exGroup42 = exRecord42 := by
  have hlm : lateMinutesOf exGroup42 = 30 := by
    unfold lateMinutesOf
    rw [exGroup42_checkIn]
    norm_num [office_start]
  have hisl : isLateOf exGroup42 = true := by decide
  have hst : statusOf exGroup42 = "PRESENT".data := by
    unfold statusOf
    rw [exGroup42_checkIn, exGroup42_wh]
    rw [if_neg (by simp), if_neg (by norm_num), if_neg (by norm_num)]
  have hlf : lateFlagOf exGroup42 = "🚩 LATE".data := by
    unfold lateFlagOf
    rw [exGroup42_checkIn, hisl]
    rw [if_neg (by simp)]
    simp
  have hround : pyRound2 (0 : ℚ) = 0 := by
    unfold pyRound2 roundHalfEven
    norm_num
  unfold processGroup exRecord42
  rw [exGroup42_checkIn, exGroup42_checkOut, exGroup42_wh, hlm, hisl, hst, hlf,
    hround]
  have hfl30 : (⌊(30 : ℚ)⌋₊ : ℕ) = 30 := by norm_num
  rw [hfl30]
  rfl

/-- The full pipeline on the example punches. -/
theorem exPipeline_eval :
    process_attendance_data exPunches exEmployees = [exRecord7, exRecord42] := by
  unfold process_attendance_data
  rw [exDaily_eval]
  simp only [List.map_cons, List.map_nil, exGroup7_eval, exGroup42_eval]

theorem pyRound2_zero : pyRound2 0 = 0 := by
  unfold pyRound2 roundHalfEven
  norm_num

theorem statusOf_spec (g : DailyGroup) :
    (statusOf g = "ABSENT".data ↔ checkInOf g = none) ∧
    (statusOf g = "PRESENT".data ↔
      checkInOf g ≠ none ∧ (7 ≤ workingHoursOf g ∨ workingHoursOf g < 4)) ∧
    (statusOf g = "HALF_DAY".data ↔
      checkInOf g ≠ none ∧ (4 ≤ workingHoursOf g ∧ workingHoursOf g < 7)) := by
  have hAP : ("ABSENT".data : List Char) ≠ "PRESENT".data := by decide
  have hAH : ("ABSENT".data : List Char) ≠ "HALF_DAY".data := by decide
  have hPH : ("PRESENT".data : List Char) ≠ "HALF_DAY".data := by decide
  unfold statusOf
  by_cases hci : checkInOf g = none
  · rw [if_pos hci]
    exact ⟨by simp [hci], by simp [hAP, hci], by simp [hAH, hci]⟩
  · rw [if_neg hci]
    by_cases h7 : 7 ≤ workingHoursOf g
    · rw [if_pos h7]
      have h7' : ¬ workingHoursOf g < 7 := not_lt.mpr h7
      exact ⟨by simp [Ne.symm hAP, hci], by simp [hci, h7],
        by simp [hPH, h7']⟩
    · rw [if_neg h7]
      by_cases h4 : 4 ≤ workingHoursOf g
      · rw [if_pos h4]
        have h4' : ¬ workingHoursOf g < 4 := not_lt.mpr h4
        exact ⟨by simp [Ne.symm hAH, hci], by simp [Ne.symm hPH, h7, h4'],
          by simp [hci, h4, not_le.mp h7]⟩
      · rw [if_neg h4]
        exact ⟨by simp [Ne.symm hAP, hci], by simp [hci, not_le.mp h4],
          by simp [hPH, h4]⟩

/-- C1: for every reconciled record, the status is `ABSENT` iff there is no
check-in, `PRESENT` iff a check-in is present and the (pre-rounding) working
hours are ≥ 7 or < 4, and `HALF_DAY` iff a check-in is present and the
working hours lie in `[4, 7)` — in particular exactly 4.0 hours gives
`HALF_DAY`, exactly 7.0 gives `PRESENT`, and 3.99 with a check-in gives
`PRESENT`. -/
theorem C1_status_thresholds (records : List PunchRecord)
    (employees : List Char → Option (List Char)) (pr : ProcRecord)
    (hpr : pr ∈ process_attendance_data records employees) :
    (pr.Status = "ABSENT".data ↔ pr.Check_In = none) ∧
    (pr.Status = "PRESENT".data ↔
      pr.Check_In ≠ none ∧ (7 ≤ pr.working_hours_raw ∨ pr.working_hours_raw < 4)) ∧
    (pr.Status = "HALF_DAY".data ↔
      pr.Check_In ≠ none ∧ (4 ≤ pr.working_hours_raw ∧ pr.working_hours_raw < 7)) := by
  unfold process_attendance_data at hpr
  obtain ⟨g, _, rfl⟩ := List.mem_map.mp hpr
  exact statusOf_spec g

theorem C1_witness :
    exRecord7.Status = "PRESENT".data ∧ exRecord42.Status = "PRESENT".data := by
  have h7 := C1_status_thresholds exPunches exEmployees exRecord7
    (by rw [exPipeline_eval]; exact List.mem_cons_self _ _)
  have h42 := C1_status_thresholds exPunches exEmployees exRecord42
    (by rw [exPipeline_eval]; exact List.mem_cons_of_mem _ (List.mem_cons_self _ _))
  constructor
  · refine (h7.2.1).mpr ⟨by simp [exRecord7], Or.inl ?_⟩
    show (7 : ℚ) ≤ exRecord7.working_hours_raw
    norm_num [exRecord7]
  · refine (h42.2.1).mpr ⟨by simp [exRecord42], Or.inr ?_⟩
    show exRecord42.working_hours_raw < 4
    norm_num [exRecord42]

theorem head_le_getLast_of_sorted (l : List ℕ) (hs : l.Sorted (· ≤ ·)) (a b : ℕ)
    (ha : l.head? = some a) (hb : l.getLast? = some b) : a ≤ b := by
  cases l with
  | nil => simp at ha
  | cons x xs =>
    rw [List.head?_cons, Option.some.injEq] at ha
    subst ha
    cases xs with
    | nil =>
      simp only [List.getLast?_singleton, Option.some.injEq] at hb
      exact hb.le
    | cons y ys =>
      rw [List.getLast?_cons_cons] at hb
      obtain ⟨hne, hbl⟩ :=
        List.mem_getLast?_eq_getLast (l := y :: ys) (x := b) hb
      have hmem : b ∈ y :: ys := hbl ▸ List.getLast_mem hne
      exact List.rel_of_sorted_cons hs b hmem

/-- C5: whenever a reconciled record carries both a check-in and a
check-out, the check-in time is ≤ the check-out time. -/
theorem C5_check_in_le_check_out (records : List PunchRecord)
    (employees : List Char → Option (List Char)) (pr : ProcRecord)
    (hpr : pr ∈ process_attendance_data records employees) (ci co : ℕ)
    (hci : pr.Check_In = some ci) (hco : pr.Check_Out = some co) : ci ≤ co := by
  unfold process_attendance_data at hpr
  obtain ⟨g, _, rfl⟩ := List.mem_map.mp hpr
  have hs : (sortedTimes g).Sorted (· ≤ ·) := List.sorted_insertionSort _ _
  have hci' : (sortedTimes g).head? = some ci := hci
  have hco₀ : checkOutOf g = some co := hco
  have hco' : (sortedTimes g).getLast? = some co := by
    unfold checkOutOf at hco₀
    by_cases hlen : 1 < (sortedTimes g).length
    · rwa [if_pos hlen] at hco₀
    · rw [if_neg hlen] at hco₀
      exact absurd hco₀ (by simp)
  exact head_le_getLast_of_sorted _ hs ci co hci' hco'

theorem C5_witness : (9 * 3600 + 15 * 60 : ℕ) ≤ 17 * 3600 + 20 * 60 :=
  C5_check_in_le_check_out exPunches exEmployees exRecord7
    (by rw [exPipeline_eval]; exact List.mem_cons_self _ _)
    (9 * 3600 + 15 * 60) (17 * 3600 + 20 * 60) rfl rfl

/-- C3: a `(employee_id, date)` group with exactly one punch yields a record
whose check-in is that punch's time, whose check-out is absent, and whose
working hours are 0. -/
theorem C3_single_punch_policy (records : List PunchRecord)
    (employees : List Char → Option (List Char)) (pr : ProcRecord)
    (hpr : pr ∈ process_attendance_data records employees) (t : ℕ)
    (hsingle : (records.filter
        (fun r => punchPair r = (pr.Employee_ID, pr.Date))).map (fun r => r.time) =
      [t]) :
    pr.Check_In = some t ∧ pr.Check_Out = none ∧ pr.Working_Hours = 0 := by
  unfold process_attendance_data at hpr
  obtain ⟨g, hg, rfl⟩ := List.mem_map.mp hpr
  obtain ⟨hSpec, _, _⟩ := dailyData_spec employees records
  have htimes := (hSpec g hg).2
  have hpair : ((processGroup g).Employee_ID, (processGroup g).Date) = groupPair g := rfl
  simp only [hpair] at hsingle
  have hone : g.times = [t] := by rw [htimes]; exact hsingle
  have hsort : sortedTimes g = [t] := by
    unfold sortedTimes
    rw [hone]
    rfl
  have hco : checkOutOf g = none := by
    unfold checkOutOf
    rw [if_neg (by rw [hsort]; simp)]
  refine ⟨?_, hco, ?_⟩
  · show checkInOf g = some t
    unfold checkInOf
    rw [hsort]
    rfl
  · show pyRound2 (workingHoursOf g) = 0
    have hw : workingHoursOf g = 0 := by
      unfold workingHoursOf
      rw [hco]
      cases checkInOf g <;> rfl
    rw [hw]
    exact pyRound2_zero

theorem C3_witness :
    exRecord42.Check_In = some (10 * 3600) ∧ exRecord42.Check_Out = none ∧
      exRecord42.Working_Hours = 0 :=
  C3_single_punch_policy exPunches exEmployees exRecord42
    (by rw [exPipeline_eval]; exact List.mem_cons_of_mem _ (List.mem_cons_self _ _))
    (10 * 3600) (by decide)

/-- C4: for every reconciled record with a check-in, `is_late` holds iff the
check-in is strictly after 09:30:00 (so exactly 09:30:00 is not late), and
`Late_Minutes` is the floor of the minute difference past 09:30:00 when
late (`int(seconds/60)`, equal to whole-minute integer division) and 0 when
not late. -/
theorem C4_lateness_boundary (records : List PunchRecord)
    (employees : List Char → Option (List Char)) (pr : ProcRecord) (ci : ℕ)
    (hpr : pr ∈ process_attendance_data records employees)
    (hci : pr.Check_In = some ci) :
    (pr.Is_Late = true ↔ office_start < ci) ∧
    pr.Late_Minutes =
      (if office_start < ci then (ci - office_start) / 60 else 0) := by
  unfold process_attendance_data at hpr
  obtain ⟨g, _, rfl⟩ := List.mem_map.mp hpr
  have hci' : checkInOf g = some ci := hci
  constructor
  · show isLateOf g = true ↔ _
    unfold isLateOf
    rw [hci']
    simp
  · show ⌊lateMinutesOf g⌋₊ = _
    unfold lateMinutesOf
    rw [hci']
    show ⌊if office_start < ci then ((ci : ℚ) - (office_start : ℚ)) / 60 else 0⌋₊ = _
    by_cases hl : office_start < ci
    · rw [if_pos hl, if_pos hl]
      rw [← Nat.cast_sub hl.le]
      rw [show ((60 : ℚ)) = ((60 : ℕ) : ℚ) by norm_num]
      exact Nat.floor_div_eq_div (ci - office_start) 60
    · rw [if_neg hl, if_neg hl]
      exact Nat.floor_zero

theorem C4_witness :
    exRecord42.Is_Late = true ∧
      exRecord42.Late_Minutes = (10 * 3600 - office_start) / 60 := by
  have h := C4_lateness_boundary exPunches exEmployees exRecord42 (10 * 3600)
    (by rw [exPipeline_eval]; exact List.mem_cons_of_mem _ (List.mem_cons_self _ _))
    rfl
  refine ⟨h.1.mpr (by decide), ?_⟩
  rw [h.2, if_pos (by decide)]

/-- C10 (implicit): every reconciled record has a check-in — each group
exists only because at least one punch fell in it — so the `ABSENT` status
and the `ABSENT` late-flag branches are unreachable and every record's
status is `PRESENT` or `HALF_DAY`. -/
theorem C10_absent_unreachable (records : List PunchRecord)
    (employees : List Char → Option (List Char)) (pr : ProcRecord)
    (hpr : pr ∈ process_attendance_data records employees) :
    pr.Check_In ≠ none ∧ pr.Status ≠ "ABSENT".data ∧
      (pr.Status = "PRESENT".data ∨ pr.Status = "HALF_DAY".data) ∧
      pr.Late_Flag ≠ "❌ ABSENT".data := by
  unfold process_attendance_data at hpr
  obtain ⟨g, hg, rfl⟩ := List.mem_map.mp hpr
  have hne := dailyData_times_ne_nil employees records g hg
  have hsne : sortedTimes g ≠ [] := by
    intro h
    apply hne
    have hlen := List.length_insertionSort (fun x1 x2 => x1 ≤ x2) g.times
    rw [show List.insertionSort (fun x1 x2 => x1 ≤ x2) g.times = sortedTimes g
      from rfl, h] at hlen
    exact List.length_eq_zero.mp hlen.symm
  have hci : checkInOf g ≠ none := by
    unfold checkInOf
    rw [Ne, List.head?_eq_none_iff]
    exact hsne
  have hstat : statusOf g = "PRESENT".data ∨ statusOf g = "HALF_DAY".data := by
    unfold statusOf
    rw [if_neg hci]
    by_cases h7 : 7 ≤ workingHoursOf g
    · rw [if_pos h7]; exact Or.inl rfl
    · rw [if_neg h7]
      by_cases h4 : 4 ≤ workingHoursOf g
      · rw [if_pos h4]; exact Or.inr rfl
      · rw [if_neg h4]; exact Or.inl rfl
  have hflag : lateFlagOf g ≠ "❌ ABSENT".data := by
    unfold lateFlagOf
    rw [if_neg hci]
    by_cases hl : isLateOf g = true
    · rw [if_pos hl]; decide
    · rw [if_neg hl]; decide
  refine ⟨hci, ?_, hstat, hflag⟩
  show statusOf g ≠ "ABSENT".data
  rcases hstat with h | h <;> rw [h] <;> decide

theorem C10_witness :
    exRecord42.Check_In ≠ none ∧ exRecord42.Status ≠ "ABSENT".data :=
  let h := C10_absent_unreachable exPunches exEmployees exRecord42
    (by rw [exPipeline_eval]; exact List.mem_cons_of_mem _ (List.mem_cons_self _ _))
  ⟨h.1, h.2.1⟩

/-- C7: the query layer is the filter chain of `search_records`: the
employee filter is case-insensitive exact equality (applied only when the
parameter is nonempty), date filtering is inclusive on whichever bounds are
given and absent when neither is, and when nothing matches the result is the
empty list (never an error). -/
theorem C7_query_matching (records : List QRow)
    (employee_id from_date to_date : List Char) :
    (search_records records employee_id from_date to_date =
      records.filter (fun r =>
        (employee_id = [] || pyLower r.Employee_ID = pyLower employee_id) &&
        ((from_date = [] || pyStrLe from_date r.Date) &&
         (to_date = [] || pyStrLe r.Date to_date)))) ∧
    (∀ r : QRow, r ∈ search_records records employee_id from_date to_date ↔
      (r ∈ records ∧
        (employee_id ≠ [] → pyLower r.Employee_ID = pyLower employee_id) ∧
        (from_date ≠ [] → pyStrLe from_date r.Date = true) ∧
        (to_date ≠ [] → pyStrLe r.Date to_date = true))) ∧
    ((∀ r ∈ records, ¬((employee_id ≠ [] → pyLower r.Employee_ID = pyLower employee_id) ∧
        (from_date ≠ [] → pyStrLe from_date r.Date = true) ∧
        (to_date ≠ [] → pyStrLe r.Date to_date = true))) →
      search_records records employee_id from_date to_date = []) := by
  have hfilter : search_records records employee_id from_date to_date =
      records.filter (fun r =>
        (employee_id = [] || pyLower r.Employee_ID = pyLower employee_id) &&
        ((from_date = [] || pyStrLe from_date r.Date) &&
         (to_date = [] || pyStrLe r.Date to_date))) := by
    unfold search_records
    by_cases he : employee_id = [] <;> by_cases hf : from_date = [] <;>
      by_cases ht : to_date = [] <;>
      simp only [he, hf, ht, ne_eq, not_true_eq_false, not_false_eq_true,
        if_true, if_false, true_and, and_true, false_and, and_false,
        if_neg, if_pos, List.filter_filter] <;>
      first
      | (apply List.filter_congr
         intro r _
         simp [he, hf, ht, Bool.and_comm, Bool.and_assoc, Bool.and_left_comm])
      | simp [he, hf, ht]
  have hmem : ∀ r : QRow,
      r ∈ search_records records employee_id from_date to_date ↔
      (r ∈ records ∧
        (employee_id ≠ [] → pyLower r.Employee_ID = pyLower employee_id) ∧
        (from_date ≠ [] → pyStrLe from_date r.Date = true) ∧
        (to_date ≠ [] → pyStrLe r.Date to_date = true)) := by
    intro r
    rw [hfilter, List.mem_filter]
    simp only [Bool.and_eq_true, Bool.or_eq_true, decide_eq_true_eq,
      or_iff_not_imp_left, ne_eq, and_assoc]
  refine ⟨hfilter, hmem, ?_⟩
  intro hnone
  rw [List.eq_nil_iff_forall_not_mem]
  intro r hr
  rw [hmem r] at hr
  exact hnone r hr.1 hr.2

theorem C7_witness :
    (⟨"E7".data, "2024-01-10".data, []⟩ : QRow) ∈
      search_records [⟨"E7".data, "2024-01-10".data, []⟩,
        ⟨"042".data, "2024-01-10".data, []⟩] "e7".data [] [] ∧
    (⟨"042".data, "2024-01-10".data, []⟩ : QRow) ∉
      search_records [⟨"E7".data, "2024-01-10".data, []⟩,
        ⟨"042".data, "2024-01-10".data, []⟩] "e7".data [] [] := by
  have h := C7_query_matching [⟨"E7".data, "2024-01-10".data, []⟩,
    ⟨"042".data, "2024-01-10".data, []⟩] "e7".data [] []
  constructor
  · exact (h.2.1 _).mpr (by decide)
  · intro hmem42
    exact absurd ((h.2.1 _).mp hmem42) (by decide)

theorem C8_counterexample :
    0 < presentDaysOf (employeeGroup [exRecord7] (['7'], "Jane Doe".data)) ∧
    punctualityRateOf (employeeGroup [exRecord7] (['7'], "Jane Doe".data)) ≠
      ((presentDaysOf (employeeGroup [exRecord7] (['7'], "Jane Doe".data)) : ℚ) -
          (lateCountOf (employeeGroup [exRecord7] (['7'], "Jane Doe".data)) : ℚ)) /
        (presentDaysOf (employeeGroup [exRecord7] (['7'], "Jane Doe".data)) : ℚ) := by
  have hgrp : employeeGroup [exRecord7] (['7'], "Jane Doe".data) = [exRecord7] := by
    unfold employeeGroup
    rw [List.filter_cons, if_pos (by decide), List.filter_nil]
  have hp : presentDaysOf [exRecord7] = 1 := by decide
  have hl : lateCountOf [exRecord7] = 0 := by decide
  have hrate : punctualityRateOf [exRecord7] = 100 := by
    unfold punctualityRateOf
    rw [hp, hl, if_pos (by norm_num)]
    have harg : (((1 : ℕ) : ℚ) - ((0 : ℕ) : ℚ)) / ((1 : ℕ) : ℚ) * 100 = 100 := by
      norm_num
    rw [harg]
    unfold pyRound1 roundHalfEven
    have hfl : ⌊(100 : ℚ) * 10⌋ = 1000 := by
      rw [Int.floor_eq_iff]
      norm_num
    rw [hfl]
    norm_num
  rw [hgrp, hp, hl, hrate]
  norm_num

/-- C8 (amended): for every employee group of the comparison aggregation,
the stored punctuality rate is the percentage
`round((present_days − late_days) / present_days * 100, 1)` when
`present_days > 0` and the guarded default `0` when `present_days = 0`; the
computation is total and never divides by zero. -/
theorem C8_punctuality_rate_guarded (rs : List ProcRecord)
    (k : List Char × List Char) (_hk : k ∈ employeeKeys rs) :
    (0 < ((employeeGroup rs k).filter
        (fun r => r.Status ≠ "ABSENT".data)).length →
      punctualityRateOf (employeeGroup rs k) =
        pyRound1 (((((employeeGroup rs k).filter
            (fun r => r.Status ≠ "ABSENT".data)).length : ℚ) -
          (((employeeGroup rs k).filter (fun r => r.Is_Late)).length : ℚ)) /
          (((employeeGroup rs k).filter
            (fun r => r.Status ≠ "ABSENT".data)).length : ℚ) * 100)) ∧
    (((employeeGroup rs k).filter
        (fun r => r.Status ≠ "ABSENT".data)).length = 0 →
      punctualityRateOf (employeeGroup rs k) = 0) := by
  constructor
  · intro hp
    unfold punctualityRateOf presentDaysOf lateCountOf
    rw [if_pos hp]
  · intro hp0
    unfold punctualityRateOf presentDaysOf lateCountOf
    rw [if_neg (by rw [hp0]; exact lt_irrefl 0)]

theorem C8_witness :
    0 < ((employeeGroup [exRecord7] (['7'], "Jane Doe".data)).filter
        (fun r => r.Status ≠ "ABSENT".data)).length ∧
    punctualityRateOf (employeeGroup [exRecord7] (['7'], "Jane Doe".data)) =
      pyRound1 (((((employeeGroup [exRecord7] (['7'], "Jane Doe".data)).filter
          (fun r => r.Status ≠ "ABSENT".data)).length : ℚ) -
        (((employeeGroup [exRecord7] (['7'], "Jane Doe".data)).filter
          (fun r => r.Is_Late)).length : ℚ)) /
        (((employeeGroup [exRecord7] (['7'], "Jane Doe".data)).filter
          (fun r => r.Status ≠ "ABSENT".data)).length : ℚ) * 100) := by
  have h := C8_punctuality_rate_guarded [exRecord7] (['7'], "Jane Doe".data)
    (by decide)
  exact ⟨by decide, h.1 (by decide)⟩

theorem pyIsdigit_ne_nil (s : List Char) (h : pyIsdigit s = true) : s ≠ [] := by
  intro hnil
  rw [hnil] at h
  simp [pyIsdigit] at h

theorem findId_shape (data : List ℕ) :
    ∀ fuel p s, findId data p fuel = some s →
      pyIsdigit s = true ∧ s.length ≤ 3 := by
  intro fuel
  induction fuel with
  | zero => intro p s h; simp [findId] at h
  | succ n ih =>
    intro p s h
    simp only [findId] at h
    split at h
    · split at h
      · exact ih _ _ h
      · split at h
        · split at h
          · rw [Option.some.injEq] at h
            subst h
            rename_i hcond
            rw [Bool.and_eq_true] at hcond
            exact ⟨hcond.1, by simpa using hcond.2⟩
          · exact ih _ _ h
        · exact ih _ _ h
    · exact absurd h (by simp)

theorem scanEventsAux_ids (data : List ℕ) :
    ∀ fuel pos i nm, (i, nm) ∈ scanEventsAux data pos fuel →
      pyIsdigit i = true ∧ i.length ≤ 3 := by
  intro fuel
  induction fuel with
  | zero => intro pos i nm h; simp [scanEventsAux] at h
  | succ f ih =>
    intro pos i nm h
    simp only [scanEventsAux] at h
    split at h
    · split at h
      · split at h
        · split at h
          · rcases List.mem_cons.mp h with heq | hrest
            · rename_i hfound
              rw [Prod.mk.injEq] at heq
              exact heq.1 ▸ findId_shape data _ _ _ hfound
            · exact ih _ _ _ hrest
          · exact ih _ _ _ h
        · exact ih _ _ _ h
      · exact ih _ _ _ h
    · simp at h

theorem foldl_dictInsert_entries (evs : List (List Char × List Char)) :
    ∀ m kv, kv ∈ evs.foldl dictInsert m → kv ∈ m ∨ kv ∈ evs := by
  induction evs with
  | nil => intro m kv h; exact Or.inl h
  | cons e evs ih =>
    intro m kv h
    rw [List.foldl_cons] at h
    rcases ih _ kv h with hm | hevs
    · unfold dictInsert at hm
      split at hm
      · obtain ⟨p, hpm, hpe⟩ := List.mem_map.mp hm
        by_cases hpk : p.1 = e.1
        · rw [if_pos hpk] at hpe
          exact Or.inr (hpe ▸ List.mem_cons_self e evs)
        · rw [if_neg hpk] at hpe
          exact Or.inl (hpe ▸ hpm)
      · rcases List.mem_append.mp hm with h' | h'
        · exact Or.inl h'
        · exact Or.inr (List.mem_singleton.mp h' ▸ List.mem_cons_self e evs)
    · exact Or.inr (List.mem_cons_of_mem e hevs)

theorem lookup_map_update_ne (m : List (List Char × List Char))
    (kv : List Char × List Char) (k : List Char) (hk : kv.1 ≠ k) :
    dictLookup (m.map (fun p => if p.1 = kv.1 then kv else p)) k =
      dictLookup m k := by
  induction m with
  | nil => rfl
  | cons p m ih =>
    simp only [List.map_cons]
    unfold dictLookup
    by_cases hpk : p.1 = kv.1
    · rw [if_pos hpk]
      rw [List.find?_cons_of_neg _ (by simp [hk]),
        List.find?_cons_of_neg _ (by simp [hpk ▸ hk])]
      exact ih
    · rw [if_neg hpk]
      by_cases hpkk : p.1 = k
      · rw [List.find?_cons_of_pos _ (by simp [hpkk]),
          List.find?_cons_of_pos _ (by simp [hpkk])]
      · rw [List.find?_cons_of_neg _ (by simp [hpkk]),
          List.find?_cons_of_neg _ (by simp [hpkk])]
        exact ih

theorem lookup_map_update_eq (m : List (List Char × List Char))
    (kv : List Char × List Char) (k : List Char) (hk : kv.1 = k)
    (hany : m.any (fun p => p.1 = kv.1) = true) :
    dictLookup (m.map (fun p => if p.1 = kv.1 then kv else p)) k =
      some kv.2 := by
  induction m with
  | nil => simp at hany
  | cons p m ih =>
    simp only [List.any_cons, Bool.or_eq_true, decide_eq_true_eq] at hany
    simp only [List.map_cons]
    unfold dictLookup
    by_cases hpk : p.1 = kv.1
    · rw [if_pos hpk, List.find?_cons_of_pos _ (by simp [hk])]
      rfl
    · rw [if_neg hpk]
      rcases hany with h | h
      · exact absurd h hpk
      · rw [List.find?_cons_of_neg _ (by
          simp only [decide_eq_true_eq]
          intro hc
          exact hpk (hc.trans hk.symm))]
        exact ih h

theorem dictLookup_dictInsert (m : List (List Char × List Char))
    (kv : List Char × List Char) (k : List Char) :
    dictLookup (dictInsert m kv) k =
      if kv.1 = k then some kv.2 else dictLookup m k := by
  unfold dictInsert
  by_cases hany : m.any (fun p => p.1 = kv.1) = true
  · rw [if_pos hany]
    by_cases hk : kv.1 = k
    · rw [if_pos hk]
      exact lookup_map_update_eq m kv k hk hany
    · rw [if_neg hk]
      exact lookup_map_update_ne m kv k hk
  · rw [if_neg hany]
    unfold dictLookup
    rw [List.find?_append]
    by_cases hk : kv.1 = k
    · have hnone : m.find? (fun p => p.1 = k) = none := by
        rw [List.find?_eq_none]
        intro p hp
        simp only [decide_eq_true_eq]
        intro hpk
        exact hany (List.any_eq_true.mpr ⟨p, hp, by simp [hpk.trans hk.symm]⟩)
      rw [hnone, if_pos hk]
      simp [hk]
    · rw [if_neg hk]
      have hkvnone : ([kv].find? (fun p => p.1 = k)) = none := by simp [hk]
      rw [hkvnone]
      cases m.find? (fun p => p.1 = k) <;> rfl

theorem lastAcceptedName_append (evs : List (List Char × List Char))
    (e : List Char × List Char) (k : List Char) :
    lastAcceptedName (evs ++ [e]) k =
      if e.1 = k then some e.2 else lastAcceptedName evs k := by
  unfold lastAcceptedName
  rw [List.reverse_append]
  simp only [List.reverse_singleton, List.singleton_append]
  by_cases hk : e.1 = k
  · rw [List.find?_cons_of_pos _ (by simp [hk]), if_pos hk]
    rfl
  · rw [List.find?_cons_of_neg _ (by simp [hk]), if_neg hk]

theorem foldl_dictInsert_lookup (evs : List (List Char × List Char))
    (k : List Char) :
    dictLookup (evs.foldl dictInsert []) k = lastAcceptedName evs k := by
  induction evs using List.reverseRecOn with
  | nil => rfl
  | append_singleton evs e ih =>
    rw [List.foldl_append]
    simp only [List.foldl_cons, List.foldl_nil]
    rw [dictLookup_dictInsert, lastAcceptedName_append]
    by_cases hk : e.1 = k
    · rw [if_pos hk, if_pos hk]
    · rw [if_neg hk, if_neg hk]
      exact ih

/-- C9: every entry recorded by the primary binary extractor has a
non-empty, all-digit key of length at most 3, and the directory maps each id
to the name of the last accepted `(id, name)` candidate of the scan (last
occurrence wins). -/
theorem C9_directory_digit_keys_last_wins (data : List ℕ) :
    (∀ kv ∈ parse_binary_employee_file data,
      kv.1 ≠ [] ∧ pyIsdigit kv.1 = true ∧ kv.1.length ≤ 3) ∧
    (∀ k : List Char, dictLookup (parse_binary_employee_file data) k =
      lastAcceptedName (scanEvents data) k) := by
  constructor
  · intro kv hkv
    have hev : kv ∈ scanEvents data := by
      rcases foldl_dictInsert_entries (scanEvents data) [] kv hkv with h | h
      · exact absurd h (List.not_mem_nil kv)
      · exact h
    have hshape := scanEventsAux_ids data (data.length + 1) 0 kv.1 kv.2 hev
    exact ⟨pyIsdigit_ne_nil kv.1 hshape.1, hshape.1, hshape.2⟩
  · intro k
    exact foldl_dictInsert_lookup (scanEvents data) k

theorem C9_witness :
    pyIsdigit "42".data = true ∧ ("42".data : List Char).length ≤ 3 ∧
      dictLookup (parse_binary_employee_file exBinData) "42".data =
        some "Bob".data := by
  have h := C9_directory_digit_keys_last_wins exBinData
  refine ⟨(h.1 ("42".data, "Bob".data) (by decide)).2.1,
    (h.1 ("42".data, "Bob".data) (by decide)).2.2, ?_⟩
  rw [h.2 "42".data]
  decide
